import Mathlib

/-!
Verification development for the Humane Tracker TUI (`humane_cli.py`).

The Python program loads a JSON snapshot of habits and entries and lets a
user browse Categories → Habits → Entries.  This file gives a shallow
embedding of its data model, accessor operations and navigation state
machine, and proves the specification's claims about them.

Modelling conventions:
* A JSON habit/entry object is a record of `Option`-valued fields; a field
  that is absent in the JSON is `none` (`dict.get(k, d)` becomes
  `Option.getD`).
* Python raising an exception is modelled by `Except HumaneError`.
* Python `sorted` is a stable sort, modelled by `List.insertionSort`
  (stable sorts with the same comparison agree on every input).  String
  comparison is lexicographic on code points in both Python and Lean; the
  comparators below compare `String.data` (the list of characters), which
  is literally Lean's `String` order (`String.le_iff_toList_le`).
* A Python `dict` is an insertion-ordered association list with unique
  keys; inserting an existing key overwrites its value in place
  (last write wins, as the spec notes for duplicate habit ids).
-/

/-- Errors the program can raise: `ValueError` in `HumaneData.__init__`
(the spec's `ConfigurationError`), JSON/file problems (`LoadError`), and
`KeyError` from `h["id"]` on a habit without an `"id"` field. -/
inductive HumaneError where
  | configurationError
  | loadError
  | keyError
  deriving DecidableEq, Repr

/-- A habit object from the snapshot's `"habits"` list.  Every field may be
absent in the JSON, hence `Option`. -/
structure Habit where
  id : Option String
  name : Option String
  category : Option String
  targetPerWeek : Option Int
  deriving DecidableEq, Repr

/-- An entry object from the snapshot's `"entries"` list. -/
structure Entry where
  id : Option String
  habitId : Option String
  date : Option String
  value : Option Int
  createdAt : Option String
  deriving DecidableEq, Repr

/-- The parsed JSON snapshot: `data.get("habits", [])` and
`data.get("entries", [])`.  A missing key defaults to the empty list, so
the embedding keeps the lists directly. -/
structure Snapshot where
  habits : List Habit
  entries : List Entry
  deriving DecidableEq, Repr

/-- Insert into a Python dict modelled as an association list: an existing
key is overwritten in place, a new key is appended. -/
def dictInsert (k : String) (v : Habit) : List (String × Habit) → List (String × Habit)
  | [] => [(k, v)]
  | (k₀, v₀) :: rest =>
    if k₀ = k then (k₀, v) :: rest else (k₀, v₀) :: dictInsert k v rest

/-- Python `dict.get`: the value at a key, `none` if absent.  Keys built by
`dictInsert` are unique, so the first match is the value. -/
def dictGet? (m : List (String × Habit)) (k : String) : Option Habit :=
  (m.find? (fun p => p.1 = k)).map (fun p => p.2)

/-- Build `{h["id"]: h for h in habits}`: walks the habit list in order,
raising `KeyError` at the first habit without an `"id"` field (line 35 of
`humane_cli.py`). -/
def buildHabitsMapAux (acc : List (String × Habit)) :
    List Habit → Except HumaneError (List (String × Habit))
  | [] => .ok acc
  | h :: hs =>
    match h.id with
    | none => .error .keyError
    | some i => buildHabitsMapAux (dictInsert i h acc) hs

/-- The id → habit dictionary of `HumaneData.__init__`. -/
def buildHabitsMap (hs : List Habit) : Except HumaneError (List (String × Habit)) :=
  buildHabitsMapAux [] hs

/-- The constructed accessor state: `self.data`, `self.habits` (the
id → habit dict) and `self.entries`. -/
structure HumaneData where
  data : Snapshot
  habitsMap : List (String × Habit)
  entries : List Entry
  deriving DecidableEq, Repr

/-- The part of `HumaneData.__init__` that runs once `self.data` is known:
build the id map and keep the entry list. -/
def initFromSnapshot (s : Snapshot) : Except HumaneError HumaneData :=
  (buildHabitsMap s.habits).map (fun m => ⟨s, m, s.entries⟩)

/-- `HumaneData.__init__(filepath, data)`: `if data is not None` use it,
`elif filepath` (truthy, so a non-empty string) load the file, `else`
raise `ValueError` (the spec's `ConfigurationError`).  File reading is
abstracted as a `readFile` function returning a parsed snapshot or a load
error. -/
def HumaneData.create (filepath : Option String) (data : Option Snapshot)
    (readFile : String → Except HumaneError Snapshot) : Except HumaneError HumaneData :=
  match data with
  | some d => initFromSnapshot d
  | none =>
    match filepath with
    | some fp =>
      if fp = "" then .error .configurationError
      else (readFile fp).bind initFromSnapshot
    | none => .error .configurationError

/-- `habit.get("category", "uncategorized")`. -/
def habitCategory (h : Habit) : String := h.category.getD "uncategorized"

/-- `habit.get("name", "Unknown")`, the displayed habit name. -/
def habitName (h : Habit) : String := h.name.getD "Unknown"

/-- Append a habit to its category's group in the `defaultdict(list)`;
a new category key is appended at the end (dict insertion order). -/
def insertGrouped (k : String) (h : Habit) :
    List (String × List Habit) → List (String × List Habit)
  | [] => [(k, [h])]
  | (k₀, g) :: rest =>
    if k₀ = k then (k₀, g ++ [h]) :: rest else (k₀, g) :: insertGrouped k h rest

/-- `HumaneData.get_categories`: group habits by
`habit.get("category", "uncategorized")` into an insertion-ordered dict. -/
def get_categories (d : HumaneData) : List (String × List Habit) :=
  d.data.habits.foldl (fun acc h => insertGrouped (habitCategory h) h acc) []

/-- `HumaneData.get_habits_by_category`: habits whose raw `category` field
equals the argument (`h.get("category") == category`; no default is
applied here, unlike in `get_categories`). -/
def get_habits_by_category (d : HumaneData) (category : String) : List Habit :=
  d.data.habits.filter (fun h => h.category = some category)

/-- `HumaneData.get_entries_for_habit`: entries whose `habitId` field
equals the argument. -/
def get_entries_for_habit (d : HumaneData) (habit_id : String) : List Entry :=
  d.entries.filter (fun e => e.habitId = some habit_id)

/-- `HumaneData.get_habit_name`: the habit's name via the id dict, or
`"Unknown"` when the id is absent or the habit has no name. -/
def get_habit_name (d : HumaneData) (habit_id : String) : String :=
  match dictGet? d.habitsMap habit_id with
  | some h => h.name.getD "Unknown"
  | none => "Unknown"

/-- `HumaneData.get_category_stats`: `sorted(categories.items())` (keys are
distinct, so the tuple order is the key order: lexicographic on the raw
string, compared here by character list, which is Lean's `String` order),
then `(cat, len(habits), sum(h.get("targetPerWeek", 0)))` per group. -/
def get_category_stats (d : HumaneData) : List (String × Nat × Int) :=
  ((get_categories d).insertionSort (fun a b => a.1.data ≤ b.1.data)).map
    (fun p => (p.1, p.2.length, (p.2.map (fun h => h.targetPerWeek.getD 0)).sum))

/-- The sort in `HabitsScreen.on_mount`:
`sorted(self.habits, key=lambda h: h.get("name", ""))` — stable ascending
by the raw name with the empty string (not `"Unknown"`) as the default
sort key. -/
def habitsSorted (d : HumaneData) (category : String) : List Habit :=
  (get_habits_by_category d category).insertionSort
    (fun a b => (a.name.getD "").data ≤ (b.name.getD "").data)

/-- One row of the Habits table: `habit["id"]` is read twice in the loop
body (entry count and row key) and raises `KeyError` when absent; the
displayed cells are name (default `"Unknown"`), weekly target and entry
count, and the row is keyed by the habit id. -/
def habitRow (d : HumaneData) (h : Habit) :
    Except HumaneError ((String × String × String) × String) :=
  match h.id with
  | none => .error .keyError
  | some i =>
    .ok ((h.name.getD "Unknown", toString (h.targetPerWeek.getD 0),
          toString (get_entries_for_habit d i).length), i)

/-- All rows of the Habits screen, in table order. -/
def habitsRowsAux (d : HumaneData) : List Habit →
    Except HumaneError (List ((String × String × String) × String))
  | [] => .ok []
  | h :: hs =>
    match habitRow d h with
    | .error e => .error e
    | .ok r => (habitsRowsAux d hs).map (fun rs => r :: rs)

/-- All rows of the Habits screen, in table order; the loop stops with
`KeyError` at the first habit lacking an id. -/
def habitsScreenRows (d : HumaneData) (category : String) :
    Except HumaneError (List ((String × String × String) × String)) :=
  habitsRowsAux d (habitsSorted d category)

/-- The sort in `EntriesScreen.on_mount`:
`sorted(self.entries, key=lambda e: e.get("date", ""), reverse=True)` —
stable descending by the full (untruncated) date string. -/
def entriesSorted (es : List Entry) : List Entry :=
  es.insertionSort (fun a b => (b.date.getD "").data ≤ (a.date.getD "").data)

/-- One displayed row of the Entries table: date and created-at truncated
to their first 10 characters, value defaulting to 0. -/
def entryRow (e : Entry) : String × String × String :=
  ((e.date.getD "").take 10, toString (e.value.getD 0), (e.createdAt.getD "").take 10)

/-- All rows of the Entries screen: the sorted entries, then a single
`("No entries", "-", "-")` placeholder row when the entry list is empty. -/
def entriesScreenRows (d : HumaneData) (habit_id : String) :
    List (String × String × String) :=
  (entriesSorted (get_entries_for_habit d habit_id)).map entryRow ++
    (if (get_entries_for_habit d habit_id).isEmpty then [("No entries", "-", "-")] else [])

/-- A frame of the navigation controller's screen stack.  Each list screen
carries its own cursor row, as each Textual screen owns its `DataTable`. -/
inductive NavScreen where
  | categories (cursor : Nat)
  | habits (category : String) (cursor : Nat)
  | entries (habitId : String) (cursor : Nat)
  | help
  deriving DecidableEq, Repr

/-- The abstract input actions of the controller, as bound by the screens'
`BINDINGS` tables (`Quit` terminates the process and is not a stack
transition). -/
inductive NavAction where
  | moveDown
  | moveUp
  | select
  | back
  | showHelp
  | goTop
  | goBottom
  deriving DecidableEq, Repr

/-- Number of rows of the visible table: one per category stat, one per
habit of the category, and for entries one per entry or the single
placeholder row. -/
def rowCount (d : HumaneData) : NavScreen → Nat
  | .categories _ => (get_category_stats d).length
  | .habits c _ => (get_habits_by_category d c).length
  | .entries h _ => (entriesScreenRows d h).length
  | .help => 0

/-- `DataTable.action_cursor_down`: move down, clamped to the last row. -/
def cursorDown (c n : Nat) : Nat := if c + 1 < n then c + 1 else c

/-- Row key of the Categories table at a row: the raw category string
(`key=cat` at line 100). -/
def categoryKeyAt (d : HumaneData) (r : Nat) : Option String :=
  ((get_category_stats d).map (fun p => p.1))[r]?

/-- Row key of the Habits table at a row: the habit's id (`key=habit["id"]`
at line 169; a habit without an id already failed at mount). -/
def habitKeyAt (d : HumaneData) (category : String) (r : Nat) : Option String :=
  (habitsSorted d category)[r]?.bind (fun h => h.id)

/-- One transition of the navigation controller.  The top of the stack is
the visible screen; an action a screen does not bind is a no-op (the app
itself binds only `Quit`).  `Select` pushes only when the table is
non-empty (`action_select` checks `row_count > 0`); `?` on the Help screen
is bound to `action_back`, so `showHelp` there pops. -/
def navStep (d : HumaneData) (a : NavAction) : List NavScreen → List NavScreen
  | [] => []
  | top :: rest =>
    match top, a with
    | .categories c, .moveDown => .categories (cursorDown c (rowCount d (.categories c))) :: rest
    | .categories c, .moveUp => .categories (c - 1) :: rest
    | .categories c, .select =>
      if 0 < rowCount d (.categories c) then
        match categoryKeyAt d c with
        | some cat => .habits cat 0 :: .categories c :: rest
        | none => .categories c :: rest
      else .categories c :: rest
    | .categories c, .showHelp => .help :: .categories c :: rest
    | .categories c, _ => .categories c :: rest
    | .habits cat c, .moveDown => .habits cat (cursorDown c (rowCount d (.habits cat c))) :: rest
    | .habits cat c, .moveUp => .habits cat (c - 1) :: rest
    | .habits cat c, .select =>
      if 0 < rowCount d (.habits cat c) then
        match habitKeyAt d cat c with
        | some hid => .entries hid 0 :: .habits cat c :: rest
        | none => .habits cat c :: rest
      else .habits cat c :: rest
    | .habits cat c, .back => rest
    | .habits cat c, .showHelp => .help :: .habits cat c :: rest
    | .habits cat c, _ => .habits cat c :: rest
    | .entries h c, .moveDown => .entries h (cursorDown c (rowCount d (.entries h c))) :: rest
    | .entries h c, .moveUp => .entries h (c - 1) :: rest
    | .entries h c, .back => rest
    | .entries h c, .showHelp => .help :: .entries h c :: rest
    | .entries h c, .goTop => .entries h 0 :: rest
    | .entries h c, .goBottom => .entries h (rowCount d (.entries h c) - 1) :: rest
    | .entries h c, _ => .entries h c :: rest
    | .help, .back => rest
    | .help, .showHelp => rest
    | .help, _ => .help :: rest

/-- `HumaneCLI.on_mount` pushes the Categories screen: the initial stack is
the single-element `[Categories]` with the cursor on row 0. -/
def navInit : List NavScreen := [.categories 0]

/-- The controller state after a sequence of input actions. -/
def navReach (d : HumaneData) (acts : List NavAction) : List NavScreen :=
  acts.foldl (fun s a => navStep d a s) navInit

/-- Habit `habit1` of the test fixture: Morning Run, fitness, target 3. -/
def habitRun : Habit := ⟨some "habit1", some "Morning Run", some "fitness", some 3⟩

/-- Habit `habit2` of the test fixture: Meditation, wellness, target 7. -/
def habitMeditation : Habit := ⟨some "habit2", some "Meditation", some "wellness", some 7⟩

/-- Habit `habit3` of the test fixture: Evening Walk, fitness, target 5. -/
def habitWalk : Habit := ⟨some "habit3", some "Evening Walk", some "fitness", some 5⟩

/-- Entry `e1` of the test fixture. -/
def entryE1 : Entry :=
  ⟨some "e1", some "habit1", some "2025-11-28", some 1, some "2025-11-28T10:00:00Z"⟩

/-- Entry `e2` of the test fixture. -/
def entryE2 : Entry :=
  ⟨some "e2", some "habit1", some "2025-11-27", some 1, some "2025-11-27T10:00:00Z"⟩

/-- Entry `e3` of the test fixture. -/
def entryE3 : Entry :=
  ⟨some "e3", some "habit2", some "2025-11-28", some 1, some "2025-11-28T08:00:00Z"⟩

/-- The snapshot used by the repository's test suite (`TEST_DATA`). -/
def sampleSnap : Snapshot :=
  ⟨[habitRun, habitMeditation, habitWalk], [entryE1, entryE2, entryE3]⟩

/-- The accessor state obtained by loading `sampleSnap`. -/
def sampleD : HumaneData :=
  ⟨sampleSnap,
   [("habit1", habitRun), ("habit2", habitMeditation), ("habit3", habitWalk)],
   [entryE1, entryE2, entryE3]⟩

/-- Loading the test snapshot yields exactly `sampleD`. -/
lemma sampleD_init : initFromSnapshot sampleSnap = .ok sampleD := rfl

/-- A habit whose JSON object has no `"category"` key. -/
def habitNoCat : Habit := ⟨some "h1", some "Alpha", none, some 3⟩

/-- A snapshot with a single category-less habit. -/
def snapNoCat : Snapshot := ⟨[habitNoCat], []⟩

/-- The accessor state for `snapNoCat`. -/
def dNoCat : HumaneData := ⟨snapNoCat, [("h1", habitNoCat)], []⟩

/-- C2: a habit without a category field lands in the "uncategorized" group
of `get_categories` (which applies the default), but
`get_habits_by_category "uncategorized"` misses it, because that function
compares the raw field (`None`) against the argument without applying the
default.  Selecting the Uncategorized row the app itself displays would
show an empty habit list, so the two views of the bucket disagree. -/
theorem uncategorized_bucket_divergence :
    initFromSnapshot snapNoCat = .ok dNoCat ∧
    get_categories dNoCat = [("uncategorized", [habitNoCat])] ∧
    get_habits_by_category dNoCat "uncategorized" = [] :=
  ⟨rfl, rfl, rfl⟩

/-- An entry whose `habitId` points at a habit that does not exist. -/
def ghostEntry : Entry :=
  ⟨some "e9", some "ghost", some "2025-01-01", some 1, some "2025-01-01T00:00:00Z"⟩

/-- A snapshot with no habits but one entry referencing the id "ghost". -/
def snapGhost : Snapshot := ⟨[], [ghostEntry]⟩

/-- The accessor state for `snapGhost`. -/
def dGhost : HumaneData := ⟨snapGhost, [], [ghostEntry]⟩

/-- C3 counterexample: "ghost" is a habit id not present in the snapshot's
habits, and `get_habit_name` indeed answers "Unknown", but
`get_entries_for_habit "ghost"` is not empty — it returns the dangling
entry, since the function filters entries by `habitId` without checking
that the habit exists. -/
theorem ghost_entries_counterexample :
    initFromSnapshot snapGhost = .ok dGhost ∧
    (∀ hb ∈ snapGhost.habits, hb.id ≠ some "ghost") ∧
    get_habit_name dGhost "ghost" = "Unknown" ∧
    get_entries_for_habit dGhost "ghost" = [ghostEntry] ∧
    get_entries_for_habit dGhost "ghost" ≠ [] := by
  refine ⟨rfl, by decide, rfl, rfl, by decide⟩

lemma dictGet?_insert_ne {i k : String} (h : Habit) (m : List (String × Habit))
    (hne : i ≠ k) : dictGet? (dictInsert i h m) k = dictGet? m k := by
  induction m with
  | nil => simp [dictInsert, dictGet?, List.find?, hne]
  | cons p rest ih =>
    obtain ⟨k₀, v₀⟩ := p
    by_cases hk : k₀ = i
    · subst hk
      simp [dictInsert, dictGet?, List.find?, hne]
    · simp only [dictInsert, if_neg hk]
      by_cases hk' : k₀ = k
      · subst hk'
        simp [dictGet?, List.find?]
      · simpa [dictGet?, List.find?, hk'] using ih

lemma buildHabitsMapAux_lookup {k : String} :
    ∀ (hs : List Habit) (acc m : List (String × Habit)),
      (∀ hb ∈ hs, hb.id ≠ some k) →
      buildHabitsMapAux acc hs = .ok m →
      dictGet? m k = dictGet? acc k := by
  intro hs
  induction hs with
  | nil =>
    intro acc m _ hok
    cases hok
    rfl
  | cons h rest ih =>
    intro acc m hid hok
    match hi : h.id with
    | none => simp [buildHabitsMapAux, hi] at hok
    | some i =>
      have hik : i ≠ k := by
        intro hik
        exact hid h (List.mem_cons_self h rest) (by rw [hi, hik])
      simp only [buildHabitsMapAux, hi] at hok
      have := ih (dictInsert i h acc) m (fun hb hmem => hid hb (List.mem_cons_of_mem h hmem)) hok
      rw [this, dictGet?_insert_ne h acc hik]

lemma initFromSnapshot_ok {s : Snapshot} {d : HumaneData}
    (hinit : initFromSnapshot s = .ok d) :
    buildHabitsMap s.habits = .ok d.habitsMap ∧ d.data = s ∧ d.entries = s.entries := by
  unfold initFromSnapshot at hinit
  match hb : buildHabitsMap s.habits with
  | .error e => rw [hb] at hinit; cases hinit
  | .ok m =>
    rw [hb] at hinit
    cases hinit
    exact ⟨rfl, rfl, rfl⟩

/-- C3 (amended): for a habit id not present among the snapshot's habits,
`get_habit_name` returns "Unknown", and `get_entries_for_habit` returns
exactly the entries whose `habitId` field equals that id — which is the
empty list whenever no entry references the id.  Both are total functions:
no error is raised. -/
theorem unknownId_defaults (s : Snapshot) (d : HumaneData) (hid : String)
    (hinit : initFromSnapshot s = .ok d)
    (habsent : ∀ hb ∈ s.habits, hb.id ≠ some hid) :
    get_habit_name d hid = "Unknown" ∧
    get_entries_for_habit d hid = s.entries.filter (fun e => e.habitId = some hid) ∧
    ((∀ e ∈ s.entries, e.habitId ≠ some hid) → get_entries_for_habit d hid = []) := by
  obtain ⟨hmap, hdata, hentries⟩ := initFromSnapshot_ok hinit
  have hlook : dictGet? d.habitsMap hid = none :=
    buildHabitsMapAux_lookup s.habits [] d.habitsMap habsent hmap
  refine ⟨?_, ?_, ?_⟩
  · rw [get_habit_name, hlook]
  · rw [get_entries_for_habit, hentries]
  · intro hnone
    rw [get_entries_for_habit, hentries]
    rw [List.filter_eq_nil_iff]
    intro e he
    simpa using hnone e he

/-- C3 witness: instantiating the amended claim on the test snapshot at the
unknown id "habit99". -/
theorem unknownId_defaults_w :
    get_habit_name sampleD "habit99" = "Unknown" ∧
    get_entries_for_habit sampleD "habit99" =
      sampleSnap.entries.filter (fun e => e.habitId = some "habit99") ∧
    ((∀ e ∈ sampleSnap.entries, e.habitId ≠ some "habit99") →
      get_entries_for_habit sampleD "habit99" = []) :=
  unknownId_defaults sampleSnap sampleD "habit99" rfl (by decide)

/-- C6 counterexample: constructing with both a file path and in-memory
data is not rejected — the constructor succeeds, uses the in-memory
snapshot, and never reads the file (here the reader always fails, yet the
result is still `ok`). -/
theorem create_both_accepted :
    HumaneData.create (some "backup.json") (some sampleSnap) (fun _ => .error .loadError) =
      .ok sampleD :=
  rfl

/-- C6 (amended): at least one of a file path or an in-memory structure is
required — providing neither fails at construction with a
`ConfigurationError` (`ValueError` in the code) and no accessor state is
produced; providing both is accepted, the in-memory structure takes
precedence and the file is ignored. -/
theorem create_config_amended (fp : Option String) (s : Snapshot)
    (rf : String → Except HumaneError Snapshot) :
    HumaneData.create none none rf = .error .configurationError ∧
    HumaneData.create fp (some s) rf = initFromSnapshot s :=
  ⟨rfl, rfl⟩

/-- C9: whenever a habit id (known or unknown) has no matching entries, the
Entries screen consists of exactly the single placeholder row
`("No entries", "-", "-")`, never zero rows. -/
theorem entriesScreen_placeholder (d : HumaneData) (hid : String)
    (h : get_entries_for_habit d hid = []) :
    entriesScreenRows d hid = [("No entries", "-", "-")] := by
  simp [entriesScreenRows, h, entriesSorted, List.insertionSort]

/-- C9 witness: the unknown id "habit99" has no entries in the test
snapshot and the Entries screen shows the single placeholder row. -/
theorem entriesScreen_placeholder_w :
    get_entries_for_habit sampleD "habit99" = [] ∧
    entriesScreenRows sampleD "habit99" = [("No entries", "-", "-")] :=
  ⟨rfl, entriesScreen_placeholder sampleD "habit99" rfl⟩

lemma buildHabitsMapAux_error :
    ∀ (hs : List Habit) (acc : List (String × Habit)),
      (∃ h ∈ hs, h.id = none) → buildHabitsMapAux acc hs = .error .keyError := by
  intro hs
  induction hs with
  | nil => intro acc h; simp at h
  | cons h rest ih =>
    intro acc hex
    match hi : h.id with
    | none => simp [buildHabitsMapAux, hi]
    | some i =>
      obtain ⟨h₀, hmem, hid₀⟩ := hex
      rcases List.mem_cons.mp hmem with rfl | hmem₀
      · rw [hi] at hid₀; cases hid₀
      · simp only [buildHabitsMapAux, hi]
        exact ih (dictInsert i h acc) ⟨h₀, hmem₀, hid₀⟩

lemma buildHabitsMapAux_ok :
    ∀ (hs : List Habit) (acc : List (String × Habit)),
      (∀ h ∈ hs, h.id ≠ none) → ∃ m, buildHabitsMapAux acc hs = .ok m := by
  intro hs
  induction hs with
  | nil => intro acc _; exact ⟨acc, rfl⟩
  | cons h rest ih =>
    intro acc hall
    match hi : h.id with
    | none => exact absurd hi (hall h (List.mem_cons_self h rest))
    | some i =>
      simp only [buildHabitsMapAux, hi]
      exact ih (dictInsert i h acc) (fun x hx => hall x (List.mem_cons_of_mem h hx))

/-- C10: building the accessor's id → habit dictionary evaluates
`h["id"]` on every habit: if any habit lacks an id the construction
raises `KeyError` (no defaulting, no skipping), and if every habit has an
id the construction succeeds with the snapshot intact. -/
theorem init_requires_ids (s : Snapshot) :
    ((∃ h ∈ s.habits, h.id = none) → initFromSnapshot s = .error .keyError) ∧
    ((∀ h ∈ s.habits, h.id ≠ none) →
      ∃ d, initFromSnapshot s = .ok d ∧ d.data = s ∧ d.entries = s.entries) := by
  constructor
  · intro hex
    rw [initFromSnapshot, buildHabitsMap,
      buildHabitsMapAux_error s.habits [] hex]
    rfl
  · intro hall
    obtain ⟨m, hm⟩ := buildHabitsMapAux_ok s.habits [] hall
    refine ⟨⟨s, m, s.entries⟩, ?_, rfl, rfl⟩
    rw [initFromSnapshot, buildHabitsMap, hm]
    rfl

/-- A snapshot containing a habit whose JSON object has no `"id"` key. -/
def snapNoId : Snapshot := ⟨[⟨none, some "Nameless", some "misc", some 1⟩], []⟩

/-- C10 witness: construction fails with `KeyError` on `snapNoId` and
succeeds on the test snapshot, where every habit has an id. -/
theorem init_requires_ids_w :
    initFromSnapshot snapNoId = .error .keyError ∧
    ∃ d, initFromSnapshot sampleSnap = .ok d ∧ d.data = sampleSnap ∧ d.entries = sampleSnap.entries :=
  ⟨(init_requires_ids snapNoId).1 (by decide),
   (init_requires_ids sampleSnap).2 (by decide)⟩

lemma insertionSort_filter_stable {α : Type} (r : α → α → Prop) [DecidableRel r]
    [IsTotal α r] [IsTrans α r] (l : List α) (p : α → Bool)
    (hp : ∀ a b, p a = true → p b = true → r a b) :
    (l.insertionSort r).filter p = l.filter p := by
  have hpair : (l.filter p).Pairwise r :=
    List.pairwise_of_forall_mem_list (fun a ha b hb =>
      hp a b (List.of_mem_filter ha) (List.of_mem_filter hb))
  have hsub : List.Sublist (l.filter p) (l.insertionSort r) :=
    List.sublist_insertionSort hpair (List.filter_sublist l)
  have hself : (l.filter p).filter p = l.filter p :=
    List.filter_eq_self.mpr (fun a ha => List.of_mem_filter ha)
  have hsub2 : List.Sublist (l.filter p) ((l.insertionSort r).filter p) := by
    have := List.Sublist.filter p hsub
    rwa [hself] at this
  have hlen : ((l.insertionSort r).filter p).length = (l.filter p).length :=
    (List.Perm.filter p (List.perm_insertionSort r l)).length_eq
  exact (hsub2.eq_of_length hlen.symm).symm

/-- C4: the Entries screen sorts the habit's entries by the full date
string, descending (each displayed date is ≥ the next), the sort is
stable — entries with any given date value appear exactly in their
original snapshot order — it is a permutation of the entry list, and the
10-character truncation happens in `entryRow`, after sorting, touching
only the displayed strings. -/
theorem entriesScreen_sorted_desc (d : HumaneData) (hid : String) :
    ((entriesSorted (get_entries_for_habit d hid)).map (fun e => e.date.getD "")).Sorted (· ≥ ·) ∧
    (∀ ds : String,
      (entriesSorted (get_entries_for_habit d hid)).filter (fun e => e.date.getD "" = ds) =
        (get_entries_for_habit d hid).filter (fun e => e.date.getD "" = ds)) ∧
    (entriesSorted (get_entries_for_habit d hid)).Perm (get_entries_for_habit d hid) ∧
    entriesScreenRows d hid =
      (entriesSorted (get_entries_for_habit d hid)).map entryRow ++
        (if (get_entries_for_habit d hid).isEmpty then [("No entries", "-", "-")] else []) := by
  haveI htot : IsTotal Entry (fun a b : Entry => (b.date.getD "").data ≤ (a.date.getD "").data) :=
    ⟨fun a b => le_total _ _⟩
  haveI htr : IsTrans Entry (fun a b : Entry => (b.date.getD "").data ≤ (a.date.getD "").data) :=
    ⟨fun _ _ _ hab hbc => le_trans hbc hab⟩
  refine ⟨?_, ?_, List.perm_insertionSort _ _, rfl⟩
  · have hs := List.sorted_insertionSort
      (fun a b : Entry => (b.date.getD "").data ≤ (a.date.getD "").data)
      (get_entries_for_habit d hid)
    exact List.Pairwise.map _ (fun a b hab => String.le_iff_toList_le.mpr hab) hs
  · intro ds
    show (List.insertionSort _ (get_entries_for_habit d hid)).filter
        (fun e => e.date.getD "" = ds) = _
    refine insertionSort_filter_stable
      (fun a b : Entry => (b.date.getD "").data ≤ (a.date.getD "").data)
      (get_entries_for_habit d hid) (fun e => e.date.getD "" = ds) ?_
    intro a b ha hb
    have ha' : a.date.getD "" = ds := of_decide_eq_true ha
    have hb' : b.date.getD "" = ds := of_decide_eq_true hb
    rw [ha', hb']

lemma habitsRowsAux_names (d : HumaneData) :
    ∀ (l : List Habit) (rows : List ((String × String × String) × String)),
      habitsRowsAux d l = .ok rows → rows.map (fun r => r.1.1) = l.map habitName := by
  intro l
  induction l with
  | nil =>
    intro rows hok
    cases hok
    rfl
  | cons h rest ih =>
    intro rows hok
    match hi : h.id with
    | none => simp [habitsRowsAux, habitRow, hi] at hok
    | some i =>
      have hr : habitRow d h =
          .ok ((h.name.getD "Unknown", toString (h.targetPerWeek.getD 0),
                toString (get_entries_for_habit d i).length), i) := by
        rw [habitRow, hi]
      rw [habitsRowsAux, hr] at hok
      match hrs : habitsRowsAux d rest with
      | .error e => rw [hrs] at hok; cases hok
      | .ok rs =>
        rw [hrs] at hok
        cases hok
        simp only [List.map_cons]
        rw [ih rs hrs]
        rfl

/-- A habit with a name and a habit without one, both in category "c". -/
def habitApple : Habit := ⟨some "a", some "Apple", some "c", none⟩

/-- A habit whose JSON object has no `"name"` key. -/
def habitNoName : Habit := ⟨some "b", none, some "c", none⟩

/-- Snapshot putting `habitApple` and `habitNoName` in the same category. -/
def snapNoName : Snapshot := ⟨[habitApple, habitNoName], []⟩

/-- The accessor state for `snapNoName`. -/
def dNoName : HumaneData := ⟨snapNoName, [("a", habitApple), ("b", habitNoName)], []⟩

/-- C5 counterexample: the Habits screen of category "c" displays
["Unknown", "Apple"], which is not sorted ascending — the sort key for an
absent name is the empty string (`h.get("name", "")`), which sorts before
"Apple", while the claim's key "Unknown" would sort after it. -/
theorem habits_sort_default_counterexample :
    initFromSnapshot snapNoName = .ok dNoName ∧
    (habitsSorted dNoName "c").map habitName = ["Unknown", "Apple"] ∧
    ¬ ((habitsSorted dNoName "c").map habitName).Sorted (· ≤ ·) := by
  refine ⟨rfl, rfl, ?_⟩
  intro hsort
  rw [show (habitsSorted dNoName "c").map habitName = ["Unknown", "Apple"] from rfl] at hsort
  have h := List.rel_of_sorted_cons hsort "Apple" (by simp)
  rw [String.le_iff_toList_le] at h
  exact absurd h (by decide)

/-- C5 (amended): the Habits screen lists the category's habits sorted
ascending by the raw name field with the empty string — not "Unknown" —
as the sort key for an absent name (so nameless habits sort first); the
row order is a permutation of the category's habits, and the displayed
name is the name field with default "Unknown". -/
theorem habits_sort_amended (d : HumaneData) (cat : String) :
    ((habitsSorted d cat).map (fun h => h.name.getD "")).Sorted (· ≤ ·) ∧
    (habitsSorted d cat).Perm (get_habits_by_category d cat) ∧
    (∀ rows, habitsScreenRows d cat = .ok rows →
      rows.map (fun r => r.1.1) = (habitsSorted d cat).map habitName) := by
  haveI : IsTotal Habit (fun a b : Habit => (a.name.getD "").data ≤ (b.name.getD "").data) :=
    ⟨fun a b => le_total _ _⟩
  haveI : IsTrans Habit (fun a b : Habit => (a.name.getD "").data ≤ (b.name.getD "").data) :=
    ⟨fun _ _ _ hab hbc => le_trans hab hbc⟩
  refine ⟨?_, List.perm_insertionSort _ _, ?_⟩
  · have hs := List.sorted_insertionSort
      (fun a b : Habit => (a.name.getD "").data ≤ (b.name.getD "").data)
      (get_habits_by_category d cat)
    exact List.Pairwise.map _ (fun a b hab => String.le_iff_toList_le.mpr hab) hs
  · intro rows hok
    exact habitsRowsAux_names d (habitsSorted d cat) rows hok

/-- C5 witness: on the test snapshot's "fitness" category the rows are
Evening Walk (5/week, 0 entries) then Morning Run (3/week, 2 entries),
and the displayed names agree with the sorted habit list. -/
theorem habits_sort_amended_w :
    habitsScreenRows sampleD "fitness" =
      .ok [(("Evening Walk", "5", "0"), "habit3"), (("Morning Run", "3", "2"), "habit1")] ∧
    ([(("Evening Walk", "5", "0"), "habit3"),
      (("Morning Run", "3", "2"), "habit1")].map (fun r => r.1.1) =
      (habitsSorted sampleD "fitness").map habitName) :=
  ⟨rfl, (habits_sort_amended sampleD "fitness").2.2 _ rfl⟩

lemma insertGrouped_map_fst (k : String) (h : Habit) :
    ∀ acc : List (String × List Habit),
      (insertGrouped k h acc).map Prod.fst =
        if k ∈ acc.map Prod.fst then acc.map Prod.fst else acc.map Prod.fst ++ [k] := by
  intro acc
  induction acc with
  | nil => simp [insertGrouped]
  | cons p rest ih =>
    obtain ⟨k₀, g⟩ := p
    by_cases hk : k₀ = k
    · subst hk
      simp [insertGrouped]
    · simp only [insertGrouped, if_neg hk, List.map_cons, ih]
      have hne : ¬k = k₀ := fun he => hk he.symm
      by_cases hmem : k ∈ rest.map Prod.fst
      · simp [hmem, hne]
      · simp [hmem, hne]

lemma mem_keys_insertGrouped {c k : String} {h : Habit} {acc : List (String × List Habit)} :
    c ∈ (insertGrouped k h acc).map Prod.fst ↔ c ∈ acc.map Prod.fst ∨ c = k := by
  rw [insertGrouped_map_fst]
  by_cases hmem : k ∈ acc.map Prod.fst
  · simp only [if_pos hmem]
    constructor
    · exact Or.inl
    · rintro (hc | rfl)
      · exact hc
      · exact hmem
  · simp [if_neg hmem]

lemma nodup_keys_insertGrouped {k : String} {h : Habit} {acc : List (String × List Habit)}
    (hnd : (acc.map Prod.fst).Nodup) :
    ((insertGrouped k h acc).map Prod.fst).Nodup := by
  rw [insertGrouped_map_fst]
  by_cases hmem : k ∈ acc.map Prod.fst
  · simpa [if_pos hmem] using hnd
  · rw [if_neg hmem]
    exact hnd.append (List.nodup_singleton k)
      (fun a ha hb => hmem (by rwa [List.mem_singleton.mp hb] at ha))

lemma insertGrouped_mem (k : String) (h : Habit) :
    ∀ (acc : List (String × List Habit)), (acc.map Prod.fst).Nodup →
      ∀ p ∈ insertGrouped k h acc,
        (p.1 ≠ k ∧ p ∈ acc) ∨
        (∃ g, (k, g) ∈ acc ∧ p = (k, g ++ [h])) ∨
        (k ∉ acc.map Prod.fst ∧ p = (k, [h])) := by
  intro acc
  induction acc with
  | nil =>
    intro _ p hp
    simp only [insertGrouped, List.mem_singleton] at hp
    exact Or.inr (Or.inr ⟨by simp, hp⟩)
  | cons q rest ih =>
    intro hnd p hp
    obtain ⟨k₀, g₀⟩ := q
    by_cases hk : k₀ = k
    · subst hk
      have he : insertGrouped k₀ h ((k₀, g₀) :: rest) = (k₀, g₀ ++ [h]) :: rest := by
        simp [insertGrouped]
      rw [he] at hp
      rcases List.mem_cons.mp hp with hpe | hp₂
      · exact Or.inr (Or.inl ⟨g₀, List.mem_cons_self _ _, hpe⟩)
      · have hk₀ : k₀ ∉ rest.map Prod.fst := (List.nodup_cons.mp (by simpa using hnd)).1
        have hpk : p.1 ≠ k₀ := by
          intro hpe2
          exact hk₀ (hpe2 ▸ List.mem_map_of_mem Prod.fst hp₂)
        exact Or.inl ⟨hpk, List.mem_cons_of_mem _ hp₂⟩
    · have he : insertGrouped k h ((k₀, g₀) :: rest) = (k₀, g₀) :: insertGrouped k h rest := by
        simp [insertGrouped, hk]
      rw [he] at hp
      rcases List.mem_cons.mp hp with hpe | hp₂
      · subst hpe
        exact Or.inl ⟨fun he2 => hk he2, List.mem_cons_self _ _⟩
      · have hnd' : (rest.map Prod.fst).Nodup := (List.nodup_cons.mp (by simpa using hnd)).2
        rcases ih hnd' p hp₂ with ⟨hne, hmem⟩ | ⟨g, hg, hpe⟩ | ⟨hnk, hpe⟩
        · exact Or.inl ⟨hne, List.mem_cons_of_mem _ hmem⟩
        · exact Or.inr (Or.inl ⟨g, List.mem_cons_of_mem _ hg, hpe⟩)
        · refine Or.inr (Or.inr ⟨?_, hpe⟩)
          simp only [List.map_cons, List.mem_cons]
          rintro (he | hm)
          · exact hk he.symm
          · exact hnk hm

/-- The grouping invariant of `get_categories`, stated for the running
accumulator of the fold over a processed prefix `pre` of the habit list:
keys are distinct, every group is exactly the filter of the prefix by its
key (in order), groups are non-empty, and absent keys match no habit. -/
def GroupInv (pre : List Habit) (acc : List (String × List Habit)) : Prop :=
  (acc.map Prod.fst).Nodup ∧
  (∀ p ∈ acc, p.2 ≠ [] ∧ p.2 = pre.filter (fun x => habitCategory x = p.1)) ∧
  (∀ c, c ∉ acc.map Prod.fst → pre.filter (fun x => habitCategory x = c) = [])

lemma groupInv_insert {pre : List Habit} {acc : List (String × List Habit)} (h : Habit)
    (hI : GroupInv pre acc) :
    GroupInv (pre ++ [h]) (insertGrouped (habitCategory h) h acc) := by
  obtain ⟨hnd, hpairs, habsent⟩ := hI
  refine ⟨nodup_keys_insertGrouped hnd, ?_, ?_⟩
  · intro p hp
    rcases insertGrouped_mem (habitCategory h) h acc hnd p hp with
      ⟨hne, hmem⟩ | ⟨g, hg, hpe⟩ | ⟨hnk, hpe⟩
    · obtain ⟨hnil, heq⟩ := hpairs p hmem
      refine ⟨hnil, ?_⟩
      rw [List.filter_append, heq]
      simp [Ne.symm hne]
    · obtain ⟨hnil, heq⟩ := hpairs (habitCategory h, g) hg
      subst hpe
      refine ⟨by simp, ?_⟩
      rw [List.filter_append]
      simp only at heq
      rw [← heq]
      simp
    · subst hpe
      refine ⟨by simp, ?_⟩
      rw [List.filter_append, habsent _ hnk]
      simp
  · intro c hc
    rw [List.filter_append]
    have hc' : c ∉ acc.map Prod.fst ∧ c ≠ habitCategory h := by
      constructor
      · exact fun hm => hc (mem_keys_insertGrouped.mpr (Or.inl hm))
      · exact fun he => hc (mem_keys_insertGrouped.mpr (Or.inr he))
    rw [habsent c hc'.1]
    have hch : ¬habitCategory h = c := fun he => hc'.2 he.symm
    simp [hch]

lemma groupInv_foldl :
    ∀ (hs pre : List Habit) (acc : List (String × List Habit)), GroupInv pre acc →
      GroupInv (pre ++ hs) (hs.foldl (fun a x => insertGrouped (habitCategory x) x a) acc) := by
  intro hs
  induction hs with
  | nil => intro pre acc hI; simpa using hI
  | cons h rest ih =>
    intro pre acc hI
    have step := groupInv_insert h hI
    have := ih (pre ++ [h]) _ step
    simpa [List.append_assoc] using this

lemma get_categories_inv (d : HumaneData) : GroupInv d.data.habits (get_categories d) := by
  have h0 : GroupInv [] ([] : List (String × List Habit)) := by
    refine ⟨by simp, by simp, by simp⟩
  simpa using groupInv_foldl d.data.habits [] [] h0

/-- C1: `get_category_stats` has its rows strictly sorted ascending by
category name (hence one row per distinct category), each row's count is
the number of habits whose (defaulted) category equals that name, each
row's total is the sum of those habits' weekly targets (default 0), and a
category has a row exactly when some habit belongs to it. -/
theorem categoryStats_correct (d : HumaneData) :
    ((get_category_stats d).map (fun p => p.1)).Sorted (· < ·) ∧
    (∀ c n t, (c, n, t) ∈ get_category_stats d →
      n = (d.data.habits.filter (fun h => habitCategory h = c)).length ∧
      t = ((d.data.habits.filter (fun h => habitCategory h = c)).map
            (fun h => h.targetPerWeek.getD 0)).sum) ∧
    (∀ c, (∃ n t, (c, n, t) ∈ get_category_stats d) ↔
      ∃ h ∈ d.data.habits, habitCategory h = c) := by
  obtain ⟨hnd, hpairs, habsent⟩ := get_categories_inv d
  haveI : IsTotal (String × List Habit)
      (fun a b : String × List Habit => a.1.data ≤ b.1.data) := ⟨fun a b => le_total _ _⟩
  haveI : IsTrans (String × List Habit)
      (fun a b : String × List Habit => a.1.data ≤ b.1.data) :=
    ⟨fun _ _ _ hab hbc => le_trans hab hbc⟩
  have hperm := List.perm_insertionSort
    (fun a b : String × List Habit => a.1.data ≤ b.1.data) (get_categories d)
  refine ⟨?_, ?_, ?_⟩
  · have hkeys_eq : (get_category_stats d).map (fun p => p.1) =
        ((get_categories d).insertionSort
          (fun a b : String × List Habit => a.1.data ≤ b.1.data)).map Prod.fst := by
      rw [get_category_stats, List.map_map]
      rfl
    have hS := List.Pairwise.map (S := fun a b : String => a ≤ b) Prod.fst
      (fun a b hab => String.le_iff_toList_le.mpr hab)
      (List.sorted_insertionSort
        (fun a b : String × List Habit => a.1.data ≤ b.1.data) (get_categories d))
    have hN := ((hperm.map Prod.fst).symm).nodup hnd
    rw [hkeys_eq]
    exact List.Sorted.lt_of_le hS hN
  · intro c n t hmem
    rw [get_category_stats] at hmem
    obtain ⟨p, hpmem, hfp⟩ := List.mem_map.mp hmem
    have hpitems : p ∈ get_categories d := hperm.mem_iff.mp hpmem
    obtain ⟨hnil, heq⟩ := hpairs p hpitems
    have h1 : p.1 = c := congrArg (fun q => q.1) hfp
    have h2 : p.2.length = n := congrArg (fun q => q.2.1) hfp
    have h3 : (p.2.map (fun h => h.targetPerWeek.getD 0)).sum = t :=
      congrArg (fun q => q.2.2) hfp
    subst h1
    constructor
    · rw [← h2, heq]
    · rw [← h3, heq]
  · intro c
    constructor
    · rintro ⟨n, t, hmem⟩
      rw [get_category_stats] at hmem
      obtain ⟨p, hpmem, hfp⟩ := List.mem_map.mp hmem
      have hpitems : p ∈ get_categories d := hperm.mem_iff.mp hpmem
      obtain ⟨hnil, heq⟩ := hpairs p hpitems
      have h1 : p.1 = c := congrArg (fun q => q.1) hfp
      have hfil : d.data.habits.filter (fun x => habitCategory x = p.1) ≠ [] := heq ▸ hnil
      obtain ⟨x, hx⟩ := List.exists_mem_of_ne_nil _ hfil
      obtain ⟨hxmem, hxcat⟩ := List.mem_filter.mp hx
      exact ⟨x, hxmem, h1 ▸ of_decide_eq_true hxcat⟩
    · rintro ⟨h, hhmem, hhcat⟩
      have hfil : d.data.habits.filter (fun x => habitCategory x = c) ≠ [] :=
        List.ne_nil_of_mem (List.mem_filter.mpr ⟨hhmem, by simp [hhcat]⟩)
      have hckeys : c ∈ (get_categories d).map Prod.fst := by
        by_contra hnc
        exact hfil (habsent c hnc)
      obtain ⟨p, hpmem, hp1⟩ := List.mem_map.mp hckeys
      refine ⟨p.2.length, (p.2.map (fun h => h.targetPerWeek.getD 0)).sum, ?_⟩
      rw [get_category_stats]
      have hps : p ∈ (get_categories d).insertionSort
          (fun a b : String × List Habit => a.1.data ≤ b.1.data) := hperm.mem_iff.mpr hpmem
      have := List.mem_map_of_mem
        (fun p : String × List Habit =>
          (p.1, p.2.length, (p.2.map (fun h => h.targetPerWeek.getD 0)).sum)) hps
      simpa [hp1] using this

/-- C1 witness: on the test snapshot the "fitness" row is (fitness, 2, 8)
and its components match the filtered habit list. -/
theorem categoryStats_correct_w :
    ("fitness", 2, (8 : Int)) ∈ get_category_stats sampleD ∧
    2 = (sampleD.data.habits.filter (fun h => habitCategory h = "fitness")).length ∧
    (8 : Int) = ((sampleD.data.habits.filter (fun h => habitCategory h = "fitness")).map
      (fun h => h.targetPerWeek.getD 0)).sum :=
  ⟨by decide, ((categoryStats_correct sampleD).2.1 "fitness" 2 8 (by decide)).1,
   ((categoryStats_correct sampleD).2.1 "fitness" 2 8 (by decide)).2⟩

lemma navStep_preserves (d : HumaneData) (a : NavAction) (s : List NavScreen)
    (h : ∃ pre c, s = pre ++ [NavScreen.categories c]) :
    ∃ pre c, navStep d a s = pre ++ [NavScreen.categories c] := by
  obtain ⟨pre, c, rfl⟩ := h
  cases pre with
  | nil =>
    rw [List.nil_append]
    cases a
    case select =>
      simp only [navStep]
      split
      · split
        · exact ⟨[_], c, rfl⟩
        · exact ⟨[], c, rfl⟩
      · exact ⟨[], c, rfl⟩
    case showHelp => exact ⟨[_], c, rfl⟩
    all_goals exact ⟨[], _, rfl⟩
  | cons top' pre' =>
    rw [List.cons_append]
    cases top' with
    | categories c₀ =>
      cases a
      case select =>
        simp only [navStep]
        split
        · split
          · exact ⟨_ :: _ :: pre', c, rfl⟩
          · exact ⟨_ :: pre', c, rfl⟩
        · exact ⟨_ :: pre', c, rfl⟩
      case showHelp => exact ⟨_ :: _ :: pre', c, rfl⟩
      all_goals exact ⟨_ :: pre', c, rfl⟩
    | habits cat₀ c₀ =>
      cases a
      case select =>
        simp only [navStep]
        split
        · split
          · exact ⟨_ :: _ :: pre', c, rfl⟩
          · exact ⟨_ :: pre', c, rfl⟩
        · exact ⟨_ :: pre', c, rfl⟩
      case back => exact ⟨pre', c, rfl⟩
      case showHelp => exact ⟨_ :: _ :: pre', c, rfl⟩
      all_goals exact ⟨_ :: pre', c, rfl⟩
    | entries hid₀ c₀ =>
      cases a
      case back => exact ⟨pre', c, rfl⟩
      case showHelp => exact ⟨_ :: _ :: pre', c, rfl⟩
      all_goals exact ⟨_ :: pre', c, rfl⟩
    | help =>
      cases a
      case back => exact ⟨pre', c, rfl⟩
      case showHelp => exact ⟨pre', c, rfl⟩
      all_goals exact ⟨_ :: pre', c, rfl⟩

lemma navReach_decomp (d : HumaneData) (acts : List NavAction) :
    ∃ pre c, navReach d acts = pre ++ [NavScreen.categories c] := by
  suffices hgen : ∀ (as : List NavAction) (s : List NavScreen),
      (∃ pre c, s = pre ++ [NavScreen.categories c]) →
      ∃ pre c, as.foldl (fun st a => navStep d a st) s = pre ++ [NavScreen.categories c] by
    exact hgen acts navInit ⟨[], 0, rfl⟩
  intro as
  induction as with
  | nil => intro s hs; simpa using hs
  | cons a rest ih =>
    intro s hs
    exact ih (navStep d a s) (navStep_preserves d a s hs)

/-- C7: the controller starts with the single-element stack `[Categories]`,
the Back action on a Categories top is a no-op, and consequently after any
sequence of input actions the stack is non-empty with a Categories screen
at its bottom. -/
theorem nav_root_invariant (d : HumaneData) (acts : List NavAction) :
    navInit = [NavScreen.categories 0] ∧
    (∀ c rest, navStep d .back (NavScreen.categories c :: rest) =
      NavScreen.categories c :: rest) ∧
    navReach d acts ≠ [] ∧
    (∃ pre c, navReach d acts = pre ++ [NavScreen.categories c]) := by
  refine ⟨rfl, fun c rest => rfl, ?_, navReach_decomp d acts⟩
  obtain ⟨pre, c, hc⟩ := navReach_decomp d acts
  rw [hc]
  simp

/-- C8: pushing the Help screen from any non-Help screen and then going
Back restores the exact previous stack — the same screen with the same
cursor position, since each frame carries its cursor. -/
theorem help_back_roundtrip (d : HumaneData) (s : List NavScreen)
    (h : s.head? ≠ some NavScreen.help) :
    navStep d .back (navStep d .showHelp s) = s := by
  match s with
  | [] => rfl
  | .categories c :: rest => rfl
  | .habits cat c :: rest => rfl
  | .entries hid c :: rest => rfl
  | .help :: rest => exact absurd rfl h

/-- C8 witness: from the initial Categories screen, ShowHelp then Back
returns to the initial stack. -/
theorem help_back_roundtrip_w :
    (navInit.head? ≠ some NavScreen.help) ∧
    navStep sampleD .back (navStep sampleD .showHelp navInit) = navInit :=
  ⟨by decide, help_back_roundtrip sampleD navInit (by decide)⟩
